import Mathlib

/-!
Shallow embedding of the AutoCut Pro Web UI frontend
(src/Web_UI/src/api.ts, App.tsx, components/SettingsPanel.tsx,
components/VideoUploadZone.tsx, types.ts).

JavaScript numbers are modelled as `ℚ` (percent values, file sizes as `Nat`),
`Math.round` as `⌊q + 1/2⌋` (JS rounds half toward +∞), and the nullable
values as `Option`.  Wall-clock timestamps on log entries are omitted
(`addLog` formats `new Date()`); a log entry is its message and its type.
-/

namespace AutoCut

/-! ### Data model (types.ts) -/

/-- A browser `File` value: its `name`, `size` and MIME `type`. -/
structure JsFile where
  name : String
  size : Nat
  type : String
deriving DecidableEq, Repr

/-- `VideoItem` from types.ts. -/
structure VideoItem where
  id : String
  file : JsFile
  name : String
  size : Nat
  thumbnailUrl : String
  previewUrl : String
deriving DecidableEq, Repr

/-- `AudioFile` from types.ts. -/
structure AudioFile where
  id : String
  file : JsFile
  name : String
  size : Nat
deriving DecidableEq, Repr

/-- `SubtitleFile` from types.ts. -/
structure SubtitleFile where
  id : String
  file : JsFile
  name : String
  size : Nat
deriving DecidableEq, Repr

/-- `ProjectSettings` from types.ts. -/
structure ProjectSettings where
  beatSensitivity : ℚ
  whisperModel : String
  language : String
  beatsPerCut : ℤ
  totalDuration : ℚ
  videoWidth : ℤ
  videoHeight : ℤ
  fps : ℤ
  tempPath : String
  outputPath : String
deriving DecidableEq, Repr

/-- Status of one pipeline stage row (`ProcessStage.status` in types.ts). -/
inductive StageStatus where
  | pending
  | running
  | completed
deriving DecidableEq, Repr

/-- `ProcessStage` from types.ts. -/
structure ProcessStage where
  id : String
  label : String
  progress : ℚ
  status : StageStatus
deriving DecidableEq, Repr

/-- `LogEntry` from types.ts, without the wall-clock timestamp string. -/
structure LogEntry where
  message : String
  type : String
deriving DecidableEq, Repr

/-- An SSE progress event (`ProgressEvent` in api.ts). -/
structure ProgressEvent where
  stage : String
  message : String
  percent : ℚ
deriving DecidableEq, Repr

/-! ### api.ts -/

def API_BASE : String := "http://localhost:8000"

/-- `getDownloadUrl` from api.ts. -/
def getDownloadUrl (taskId : String) : String :=
  API_BASE ++ "/api/download/" ++ taskId

/-- One callback fired by `subscribeProgress` on its consumer. -/
inductive Callback where
  | onDone
  | onError (msg : String)
  | onEvent (ev : ProgressEvent)
deriving DecidableEq, Repr

/-- The body of `subscribeProgress`'s `onmessage` handler for one parsed
event: returns whether the `EventSource` was closed and the callback fired. -/
def handleMessage (ev : ProgressEvent) : Bool × Callback :=
  if ev.stage = "end" then (true, Callback.onDone)
  else if ev.stage = "error" then (true, Callback.onError ev.message)
  else (false, Callback.onEvent ev)

/-- Feeding a list of raw SSE messages through `subscribeProgress`'s
`onmessage` handler.  `none` stands for a message whose payload does not
parse as JSON (e.g. a heartbeat): the `catch` branch ignores it.  After the
handler closes the `EventSource`, no further messages are delivered, so
processing stops.  Returns whether the source ended up closed and the list
of callbacks fired, in order. -/
def runStream : List (Option ProgressEvent) → Bool × List Callback
  | [] => (false, [])
  | none :: rest => runStream rest
  | some ev :: rest =>
      let (closed, cb) := handleMessage ev
      if closed then (true, [cb])
      else
        let (c2, cbs) := runStream rest
        (c2, cb :: cbs)

/-- An event whose stage terminates the subscription in api.ts. -/
def isTerminal (ev : ProgressEvent) : Bool :=
  ev.stage = "end" || ev.stage = "error"

/-! ### App.tsx -/

/-- `INITIAL_STAGES` from App.tsx: the five pipeline stage rows. -/
def INITIAL_STAGES : List ProcessStage :=
  [⟨"upload", "上传素材到服务器", 0, StageStatus.pending⟩,
   ⟨"whisper", "语音识别 (Whisper)", 0, StageStatus.pending⟩,
   ⟨"beat", "节拍检测 (Librosa)", 0, StageStatus.pending⟩,
   ⟨"ffmpeg", "FFmpeg 视频剪辑", 0, StageStatus.pending⟩,
   ⟨"finalize", "生成最终文件", 0, StageStatus.pending⟩]

/-- `updateStage` from App.tsx: set status and progress of every stage row
whose id matches `stageId`. -/
def updateStage (stages : List ProcessStage) (stageId : String)
    (status : StageStatus) (progress : ℚ) : List ProcessStage :=
  stages.map (fun s => if s.id = stageId then { s with status := status, progress := progress } else s)

/-- JS `Math.round`: rounds to the nearest integer, halves toward +∞. -/
def jsRound (q : ℚ) : ℤ := ⌊q + 1 / 2⌋

/-- The `stageWeights` record inside `handleGenerate`'s `onEvent` callback:
the overall-percent interval `[min, max]` spanned by each backend stage
(upload already accounts for the first 10). -/
def stageWeights (stage : String) : Option (ℚ × ℚ) :=
  if stage = "whisper" then some (10, 30)
  else if stage = "beat" then some (30, 45)
  else if stage = "ffmpeg" then some (45, 90)
  else if stage = "finalize" then some (90, 100)
  else none

/-- The overall-progress value `Math.round(min + percent / 100 * (max - min))`
passed to `setOverallProgress` for one event, when its stage has a weight
range; `none` when the stage is not in `stageWeights` (no update happens). -/
def overallOf (stage : String) (percent : ℚ) : Option ℤ :=
  (stageWeights stage).map (fun r => jsRound (r.1 + percent / 100 * (r.2 - r.1)))

/-- The React state of `App` that `handleGenerate` and its callbacks touch,
together with the `lastStage` closure variable of the SSE subscription and
whether an unsubscribe function is currently held in `unsubRef`. -/
structure FullState where
  videos : List VideoItem
  audio : Option AudioFile
  subtitle : Option SubtitleFile
  settings : ProjectSettings
  processStatus : String
  stages : List ProcessStage
  logs : List LogEntry
  overallProgress : ℤ
  downloadUrl : Option String
  lastStage : String
  subActive : Bool
deriving DecidableEq, Repr

/-- The `onEvent` callback inside `handleGenerate` (App.tsx): marks the
previous stage completed on a stage switch, records the new stage, and —
unless the event is the `done` stage marker — sets the event's stage
running at its percent, derives the overall percent from `stageWeights`,
and appends the event's message to the log. -/
def onEventStep (st : FullState) (ev : ProgressEvent) : FullState :=
  let st1 :=
    if ev.stage ≠ st.lastStage ∧ st.lastStage ≠ "" then
      { st with stages := updateStage st.stages st.lastStage StageStatus.completed 100 }
    else st
  let st2 := { st1 with lastStage := ev.stage }
  if ev.stage = "done" then st2
  else
    let st3 := { st2 with stages := updateStage st2.stages ev.stage StageStatus.running ev.percent }
    let st4 :=
      match stageWeights ev.stage with
      | some r => { st3 with overallProgress := jsRound (r.1 + ev.percent / 100 * (r.2 - r.1)) }
      | none => st3
    { st4 with logs := st4.logs ++ [⟨ev.message, if ev.stage = "error" then "error" else "info"⟩] }

/-- The `onDone` callback inside `handleGenerate`: every stage row becomes
completed at 100, overall progress 100, status `completed`, the download
URL is published, and a success log line is appended. -/
def onDoneStep (taskId : String) (st : FullState) : FullState :=
  { st with
    stages := st.stages.map (fun s => { s with status := StageStatus.completed, progress := 100 }),
    overallProgress := 100,
    processStatus := "completed",
    downloadUrl := some (getDownloadUrl taskId),
    logs := st.logs ++ [⟨"===== 全部处理完成 =====", "success"⟩] }

/-- The `onError` callback inside `handleGenerate`: status `error` and an
error log line carrying the message. -/
def onErrorStep (msg : String) (st : FullState) : FullState :=
  { st with
    processStatus := "error",
    logs := st.logs ++ [⟨"处理失败: " ++ msg, "error"⟩] }

/-- Applying one callback fired by `subscribeProgress` to the app state. -/
def applyCallback (taskId : String) (st : FullState) (cb : Callback) : FullState :=
  match cb with
  | Callback.onDone => onDoneStep taskId st
  | Callback.onError msg => onErrorStep msg st
  | Callback.onEvent ev => onEventStep st ev

/-- The synchronous prefix of `handleGenerate` (App.tsx, validation and
reset): rejects with an error log when no video or no audio is present;
otherwise closes any previous subscription and resets the progress state.
Returns whether the run proceeds, and the state at that point. -/
def handleGenerateSync (st : FullState) : Bool × FullState :=
  if st.videos = [] then
    (false, { st with logs := st.logs ++ [⟨"请先上传至少一个视频素材", "error"⟩] })
  else if st.audio = none then
    (false, { st with logs := st.logs ++ [⟨"请先上传背景音乐", "error"⟩] })
  else
    (true, { st with
      subActive := false,
      processStatus := "processing",
      stages := INITIAL_STAGES,
      logs := [],
      overallProgress := 0,
      downloadUrl := none,
      lastStage := "" })

/-! ### components/SettingsPanel.tsx -/

/-- Value of a decimal digit character. -/
def digitVal (c : Char) : ℕ := c.toNat - '0'.toNat

/-- JS `parseInt(s)` on a decimal-looking string: skip leading whitespace,
read an optional sign, then the longest prefix of decimal digits; `none`
models `NaN` (no digit found). -/
def jsParseInt (s : String) : Option ℤ :=
  let cs := s.toList.dropWhile Char.isWhitespace
  let (sign, cs2) : ℤ × List Char :=
    match cs with
    | '-' :: rest => (-1, rest)
    | '+' :: rest => (1, rest)
    | _ => (1, cs)
  let ds := cs2.takeWhile Char.isDigit
  if ds = [] then none
  else some (sign * (ds.foldl (fun n c => 10 * n + digitVal c) (0 : ℕ) : ℕ))

/-- The beats-per-cut change handler in SettingsPanel.tsx:
`update('beatsPerCut', parseInt(e.target.value) || 1)` — the parsed integer,
falling back to 1 when the parse is falsy (`NaN` or `0`). -/
def beatsPerCutUpdate (input : String) : ℤ :=
  match jsParseInt input with
  | none => 1
  | some n => if n = 0 then 1 else n

/-! ### components/VideoUploadZone.tsx -/

/-- JS `String.prototype.startsWith`, on the character lists (the Lean core
`String.startsWith` is extensionally the same but does not reduce in the
kernel). -/
def strStartsWith (s p : String) : Bool := p.toList.isPrefixOf s.toList

/-- Building one `VideoItem` in `handleFiles`: a fresh random id and one
object URL used for both thumbnail and preview. -/
def mkVideoItem (newId url : String) (f : JsFile) : VideoItem :=
  ⟨newId, f, f.name, f.size, url, url⟩

/-- `handleFiles` from VideoUploadZone.tsx: keep exactly the files whose
MIME type starts with `video/` (JS `startsWith`), wrap each in a fresh `VideoItem`, and append
them after the existing list.  `freshId i` and `objUrl i` model
`crypto.randomUUID()` and `URL.createObjectURL` for the i-th accepted file. -/
def handleFiles (videos : List VideoItem) (files : List JsFile)
    (freshId objUrl : ℕ → String) : List VideoItem :=
  videos ++ ((files.filter (fun f => strStartsWith f.type "video/")).enum.map
    (fun p => mkVideoItem (freshId p.1) (objUrl p.1) p.2))

/-- JS `Array.prototype.findIndex` by id: the index of the first matching
item, `-1` when absent. -/
def jsFindIndexId (videos : List VideoItem) (theId : String) : ℤ :=
  match videos.findIdx? (fun v => v.id = theId) with
  | some i => (i : ℤ)
  | none => -1

/-- dnd-kit's `arrayMove(array, from, to)`:
`newArray.splice(to < 0 ? newArray.length + to : to, 0, newArray.splice(from, 1)[0])`
on a copy.  The insertion index is computed from the original length, the
removal happens first, then the insertion into the shortened array with JS
splice clamping.  When the removal index selects no element (out of range on
the high side) JS would insert `undefined`; that corner is unreachable from
the component (indices come from `findIndex` over rendered items) and is
modelled as the identity. -/
def arrayMove (l : List VideoItem) (fm toI : ℤ) : List VideoItem :=
  let n : ℤ := l.length
  let fmN : ℤ := if fm < 0 then max (n + fm) 0 else min fm n
  let toRaw : ℤ := if toI < 0 then n + toI else toI
  match l.get? fmN.toNat with
  | none => l
  | some x =>
      let l1 := l.eraseIdx fmN.toNat
      let toN : ℕ := min (max toRaw 0).toNat l1.length
      l1.insertIdx toN x

/-- `handleDragEnd` from VideoUploadZone.tsx: when there is a drop target
and it differs from the dragged item, move the dragged item to the target's
position; otherwise leave the list alone. -/
def handleDragEnd (videos : List VideoItem) (activeId : String)
    (overId : Option String) : List VideoItem :=
  match overId with
  | none => videos
  | some o =>
      if activeId ≠ o then
        arrayMove videos (jsFindIndexId videos activeId) (jsFindIndexId videos o)
      else videos

/-! ### Derived notions used to state the claims -/

/-- Position of a backend stage in the pipeline order
whisper → beat → ffmpeg → finalize (the order of `stageWeights` in App.tsx
and of the stage rows in `INITIAL_STAGES`). -/
def stageIdx (s : String) : Option ℕ :=
  if s = "whisper" then some 0
  else if s = "beat" then some 1
  else if s = "ffmpeg" then some 2
  else if s = "finalize" then some 3
  else none

/-- Pipeline ordering on events: the first event's weighted stage comes
strictly before the second's, or they share a stage and percent does not
decrease. -/
def eventLe (a b : ProgressEvent) : Prop :=
  ∃ i j, stageIdx a.stage = some i ∧ stageIdx b.stage = some j ∧
    (i < j ∨ (i = j ∧ a.percent ≤ b.percent))

/-- The sequence of values passed to `setOverallProgress` by the `onEvent`
callback for a sequence of events (events whose stage has no weight range
produce no update). -/
def overallTrace (es : List ProgressEvent) : List ℤ :=
  es.filterMap (fun e => overallOf e.stage e.percent)

/-- Whether a callback is an `onError` invocation. -/
def isOnErrorCB : Callback → Bool
  | Callback.onError _ => true
  | _ => false

/-! ### Concrete sample values used by witnesses and counterexamples -/

def doneEvent : ProgressEvent := ⟨"done", "全部完成", 100⟩

def endEvent : ProgressEvent := ⟨"end", "", 0⟩

def errorEvent : ProgressEvent := ⟨"error", "ffmpeg exited with code 1", 0⟩

def whisperEvent : ProgressEvent := ⟨"whisper", "语音识别中", 50⟩

def beatEvent : ProgressEvent := ⟨"beat", "节拍检测中", 0⟩

def strayEvent : ProgressEvent := ⟨"ffmpeg", "stray", 10⟩

def c3Events : List ProgressEvent :=
  [⟨"whisper", "w1", 40⟩, ⟨"whisper", "w2", 90⟩, ⟨"beat", "b", 0⟩, ⟨"finalize", "f", 50⟩]

def sampleFile (n : String) (sz : Nat) (ty : String) : JsFile := ⟨n, sz, ty⟩

def sampleVideo (i : String) (n : String) : VideoItem :=
  ⟨i, sampleFile n 1000 "video/mp4", n, 1000, "blob:" ++ i, "blob:" ++ i⟩

def sampleVideos : List VideoItem :=
  [sampleVideo "a" "a.mp4", sampleVideo "b" "b.mp4", sampleVideo "c" "c.mp4"]

def sampleAudio : AudioFile := ⟨"au", sampleFile "song.mp3" 500 "audio/mpeg", "song.mp3", 500⟩

def defaultSettings : ProjectSettings :=
  ⟨1, "small", "Swedish", 2, 2108 / 100, 1080, 1920, 30, "output/temp", "output"⟩

/-- A state mid-listen: whisper running, one prior log line. -/
def listenState : FullState :=
  { videos := sampleVideos
    audio := some sampleAudio
    subtitle := none
    settings := defaultSettings
    processStatus := "processing"
    stages := updateStage INITIAL_STAGES "whisper" StageStatus.running 50
    logs := [⟨"正在上传素材到后端服务器...", "info"⟩]
    overallProgress := 20
    downloadUrl := none
    lastStage := "whisper"
    subActive := true }

/-- An idle state with materials present (passes validation). -/
def readyState : FullState :=
  { videos := sampleVideos
    audio := some sampleAudio
    subtitle := none
    settings := defaultSettings
    processStatus := "idle"
    stages := INITIAL_STAGES
    logs := [⟨"old", "info"⟩]
    overallProgress := 42
    downloadUrl := some "stale"
    lastStage := "ffmpeg"
    subActive := true }

/-- A state with no videos (fails validation). -/
def emptyState : FullState :=
  { readyState with videos := [] }

/-! ## Theorems -/

/-! ### Helper lemmas about the stream -/

theorem runStream_of_no_terminal (ms : List (Option ProgressEvent))
    (h : ∀ e, some e ∈ ms → isTerminal e = false) :
    runStream ms = (false, (ms.filterMap id).map Callback.onEvent) := by
  induction ms with
  | nil => rfl
  | cons m rest ih =>
    cases m with
    | none =>
      simp only [runStream, List.filterMap_cons]
      exact ih (fun e he => h e (List.mem_cons_of_mem _ he))
    | some ev =>
      have hev : isTerminal ev = false := h ev (List.mem_cons_self _ _)
      simp only [isTerminal, Bool.or_eq_false_iff, decide_eq_false_iff_not] at hev
      simp only [runStream, handleMessage, if_neg hev.1, if_neg hev.2]
      rw [ih (fun e he => h e (List.mem_cons_of_mem _ he))]
      simp [List.filterMap_cons]

theorem runStream_terminal (pre rest : List (Option ProgressEvent))
    (ev : ProgressEvent)
    (hpre : ∀ e, some e ∈ pre → isTerminal e = false)
    (hev : isTerminal ev = true) :
    runStream (pre ++ some ev :: rest)
      = (true, (pre.filterMap id).map Callback.onEvent
          ++ [if ev.stage = "end" then Callback.onDone
              else Callback.onError ev.message]) := by
  induction pre with
  | nil =>
    simp only [isTerminal, Bool.or_eq_true, decide_eq_true_eq] at hev
    rcases hev with h | h
    · simp [runStream, handleMessage, h]
    · by_cases hEnd : ev.stage = "end"
      · simp [runStream, handleMessage, hEnd]
      · simp [runStream, handleMessage, hEnd, h]
  | cons m pre' ih =>
    have ih' := ih (fun e he => hpre e (List.mem_cons_of_mem _ he))
    cases m with
    | none =>
      simpa only [List.cons_append, runStream, List.filterMap_cons] using ih'
    | some e =>
      have he : isTerminal e = false := hpre e (List.mem_cons_self _ _)
      simp only [isTerminal, Bool.or_eq_false_iff, decide_eq_false_iff_not] at he
      simp only [List.cons_append, runStream, handleMessage, if_neg he.1, if_neg he.2,
        Bool.false_eq_true, if_false, List.append_eq]
      rw [ih']
      simp [List.filterMap_cons]

/-! ### C1: stream termination -/

/-- C1 (counterexample): an event whose stage is `done` does NOT terminate
the stream consumed by `subscribeProgress` — the `EventSource` stays open,
`onDone` is not called, and the event is passed through to `onEvent`.  The
success marker that actually terminates the stream is the stage `end`. -/
theorem C1_counterexample :
    runStream [some doneEvent] = (false, [Callback.onEvent doneEvent]) := by
  decide

/-- C1 (amended): the stream terminates (the `EventSource` is closed and no
further callbacks fire) exactly when an event whose stage is `end` or whose
stage is `error` arrives; an `end` event causes the `onDone` callback and an
`error` event causes the `onError` callback with that event's message.
Messages before the terminal one (`pre`, heartbeats included) fire exactly
the `onEvent` callbacks and never close the source; everything after the
terminal event (`rest`) is discarded. -/
theorem C1_end_error_termination (pre rest : List (Option ProgressEvent))
    (ev : ProgressEvent)
    (hpre : ∀ e, some e ∈ pre → e.stage ≠ "end" ∧ e.stage ≠ "error")
    (hev : ev.stage = "end" ∨ ev.stage = "error") :
    runStream pre = (false, (pre.filterMap id).map Callback.onEvent)
    ∧ runStream (pre ++ some ev :: rest)
      = (true, (pre.filterMap id).map Callback.onEvent
          ++ [if ev.stage = "end" then Callback.onDone
              else Callback.onError ev.message]) := by
  have hpre' : ∀ e, some e ∈ pre → isTerminal e = false := by
    intro e he
    have h := hpre e he
    simp [isTerminal, h.1, h.2]
  refine ⟨runStream_of_no_terminal pre hpre', runStream_terminal pre rest ev hpre' ?_⟩
  simp only [isTerminal, Bool.or_eq_true, decide_eq_true_eq]
  exact hev

/-- C1 witness: a concrete run — a whisper event, a heartbeat, the `end`
marker, then a stray message that is never delivered. -/
theorem C1_witness :
    runStream [some whisperEvent, none, some endEvent, some strayEvent]
      = (true, [Callback.onEvent whisperEvent, Callback.onDone]) := by
  have h := C1_end_error_termination [some whisperEvent, none] [some strayEvent] endEvent
    (by
      intro e he
      simp only [List.mem_cons, List.not_mem_nil, or_false] at he
      rcases he with he | he
      · injection he with he
        subst he
        exact ⟨by decide, by decide⟩
      · exact absurd he (by simp))
    (Or.inl rfl)
  exact h.2.trans (by decide)

/-! ### C2: synchronous validation of the generate operation -/

/-- C2: `handleGenerate` fails synchronously when the video list is empty or
no audio source is present — the outcome is "do not proceed", the only state
change is one appended error log line (status, stages, overall progress,
download URL, subscription all untouched) — and it proceeds exactly when at
least one clip and an audio source are present. -/
theorem C2_validation (st : FullState) :
    ((st.videos = [] ∨ st.audio = none) →
      (handleGenerateSync st).1 = false
      ∧ (∃ m, (handleGenerateSync st).2 = { st with logs := st.logs ++ [⟨m, "error"⟩] }))
    ∧ (st.videos ≠ [] → st.audio ≠ none → (handleGenerateSync st).1 = true) := by
  constructor
  · intro h
    by_cases hv : st.videos = []
    · unfold handleGenerateSync
      rw [if_pos hv]
      exact ⟨rfl, ⟨_, rfl⟩⟩
    · have ha : st.audio = none := h.resolve_left hv
      unfold handleGenerateSync
      rw [if_neg hv, if_pos ha]
      exact ⟨rfl, ⟨_, rfl⟩⟩
  · intro h1 h2
    unfold handleGenerateSync
    rw [if_neg h1, if_neg h2]

/-- C2 witness: a state without videos is rejected; a state with clips and
audio proceeds. -/
theorem C2_witness :
    (handleGenerateSync emptyState).1 = false
    ∧ (handleGenerateSync readyState).1 = true := by
  refine ⟨((C2_validation emptyState).1 (Or.inl rfl)).1, ?_⟩
  exact (C2_validation readyState).2 (by decide) (by decide)

/-! ### C5: beats-per-cut change handler (code bug) -/

/-- C5: the change handler stores `parseInt(input) || 1`.  The `|| 1`
fallback only catches `NaN` and `0`, so the typed input `"-5"` is stored as
`-5`, violating the `beatsPerCut ≥ 1` invariant that the spec states and
that the input element's own `min="1"` attribute documents. -/
theorem C5_beats_per_cut_negative :
    beatsPerCutUpdate "-5" = -5 ∧ ¬ (1 ≤ beatsPerCutUpdate "-5") := by
  constructor <;> decide

/-! ### C10: reset on a validated generate -/

/-- C10: on a validated invocation, before any stage begins the progress
state is fully reset — status `processing`, the five initial pending stages,
empty log, overall progress 0, no download URL — and the previous progress
subscription is closed, while videos, audio, subtitle and settings are left
unchanged. -/
theorem C10_reset_frame (st : FullState)
    (h1 : st.videos ≠ []) (h2 : st.audio ≠ none) :
    (handleGenerateSync st).1 = true
    ∧ (handleGenerateSync st).2.processStatus = "processing"
    ∧ (handleGenerateSync st).2.stages = INITIAL_STAGES
    ∧ (handleGenerateSync st).2.logs = []
    ∧ (handleGenerateSync st).2.overallProgress = 0
    ∧ (handleGenerateSync st).2.downloadUrl = none
    ∧ (handleGenerateSync st).2.subActive = false
    ∧ (handleGenerateSync st).2.videos = st.videos
    ∧ (handleGenerateSync st).2.audio = st.audio
    ∧ (handleGenerateSync st).2.subtitle = st.subtitle
    ∧ (handleGenerateSync st).2.settings = st.settings := by
  unfold handleGenerateSync
  rw [if_neg h1, if_neg h2]
  exact ⟨rfl, rfl, rfl, rfl, rfl, rfl, rfl, rfl, rfl, rfl, rfl⟩

/-- C10 witness: the reset applied to a concrete dirty-but-valid state. -/
theorem C10_witness :
    (handleGenerateSync readyState).2.stages = INITIAL_STAGES
    ∧ (handleGenerateSync readyState).2.logs = []
    ∧ (handleGenerateSync readyState).2.videos = readyState.videos := by
  obtain ⟨-, -, h3, h4, -, -, -, h8, -, -, -⟩ :=
    C10_reset_frame readyState (by decide) (by decide)
  exact ⟨h3, h4, h8⟩

/-! ### C7: artifact addressing and download URL availability -/

theorem onEventStep_downloadUrl (st : FullState) (ev : ProgressEvent) :
    (onEventStep st ev).downloadUrl = st.downloadUrl := by
  unfold onEventStep
  cases hw : stageWeights ev.stage <;> split_ifs <;> simp [hw]

/-- C7: the artifact is addressable by task id — `getDownloadUrl t` is the
API base followed by `/api/download/` and `t` — and over any sequence of
subscription callbacks, the download URL is published if and only if the
`onDone` callback occurred; `onError` and `onEvent` callbacks never change
it. -/
theorem C7_download_url (t : String) (st : FullState) (cbs : List Callback) :
    getDownloadUrl t = "http://localhost:8000/api/download/" ++ t
    ∧ (cbs.foldl (applyCallback t) st).downloadUrl
        = (if Callback.onDone ∈ cbs then some (getDownloadUrl t) else st.downloadUrl) := by
  refine ⟨rfl, ?_⟩
  induction cbs generalizing st with
  | nil => simp
  | cons cb rest ih =>
    cases cb with
    | onDone =>
      by_cases hm : Callback.onDone ∈ rest <;>
        simp [List.foldl_cons, ih, hm, applyCallback, onDoneStep]
    | onError m =>
      by_cases hm : Callback.onDone ∈ rest <;>
        simp [List.foldl_cons, ih, hm, applyCallback, onErrorStep]
    | onEvent ev =>
      by_cases hm : Callback.onDone ∈ rest <;>
        simp [List.foldl_cons, ih, hm, applyCallback, onEventStep_downloadUrl]

/-! ### C8: video upload filter -/

/-- C8: `handleFiles` keeps the existing list as a prefix, appends exactly
the files whose MIME type starts with `video/` — in their original order,
each wrapped as a new item carrying the file, its name and its size — and
silently drops every other file. -/
theorem C8_upload_filter (videos : List VideoItem) (files : List JsFile)
    (freshId objUrl : ℕ → String) :
    (handleFiles videos files freshId objUrl).take videos.length = videos
    ∧ ((handleFiles videos files freshId objUrl).drop videos.length).map VideoItem.file
        = files.filter (fun f => strStartsWith f.type "video/")
    ∧ (∀ f ∈ files, strStartsWith f.type "video/" = false →
        f ∉ ((handleFiles videos files freshId objUrl).drop videos.length).map VideoItem.file) := by
  have hmap : ((files.filter (fun f => strStartsWith f.type "video/")).enum.map
      (fun p => mkVideoItem (freshId p.1) (objUrl p.1) p.2)).map VideoItem.file
      = files.filter (fun f => strStartsWith f.type "video/") := by
    rw [List.map_map]
    have : (VideoItem.file ∘ fun p : ℕ × JsFile => mkVideoItem (freshId p.1) (objUrl p.1) p.2)
        = Prod.snd := by
      funext p
      rfl
    rw [this, List.enum_map_snd]
  refine ⟨?_, ?_, ?_⟩
  · unfold handleFiles
    exact List.take_left videos _
  · unfold handleFiles
    rw [List.drop_left, hmap]
  · intro f _ hf
    unfold handleFiles
    rw [List.drop_left, hmap]
    intro hmem
    rw [List.mem_filter] at hmem
    rw [hmem.2] at hf
    exact Bool.noConfusion hf

/-- C8 witness: two video files and one audio file — the audio file is
dropped, the two videos are appended after the existing item in order. -/
theorem C8_witness :
    ((handleFiles [sampleVideo "a" "a.mp4"]
        [sampleFile "x.mp4" 7 "video/mp4", sampleFile "s.mp3" 9 "audio/mpeg",
         sampleFile "y.mov" 8 "video/quicktime"]
        (fun _ => "id") (fun _ => "url")).drop 1).map VideoItem.file
      = [sampleFile "x.mp4" 7 "video/mp4", sampleFile "y.mov" 8 "video/quicktime"]
    ∧ sampleFile "s.mp3" 9 "audio/mpeg"
        ∉ ((handleFiles [sampleVideo "a" "a.mp4"]
            [sampleFile "x.mp4" 7 "video/mp4", sampleFile "s.mp3" 9 "audio/mpeg",
             sampleFile "y.mov" 8 "video/quicktime"]
            (fun _ => "id") (fun _ => "url")).drop 1).map VideoItem.file := by
  have h := C8_upload_filter [sampleVideo "a" "a.mp4"]
    [sampleFile "x.mp4" 7 "video/mp4", sampleFile "s.mp3" 9 "audio/mpeg",
     sampleFile "y.mov" 8 "video/quicktime"]
    (fun _ => "id") (fun _ => "url")
  refine ⟨h.2.1.trans (by decide), ?_⟩
  exact h.2.2 (sampleFile "s.mp3" 9 "audio/mpeg") (by decide) (by decide)

/-! ### C4: five stages, strictly forward transitions -/

theorem mem_updateStage {stages : List ProcessStage} {stageId : String}
    {status : StageStatus} {progress : ℚ} {s : ProcessStage}
    (h : s ∈ updateStage stages stageId status progress) :
    ∃ t ∈ stages,
      s = if t.id = stageId then { t with status := status, progress := progress } else t := by
  unfold updateStage at h
  obtain ⟨t, ht, rfl⟩ := List.mem_map.mp h
  exact ⟨t, ht, rfl⟩

/-- Closed form of the stage list after one `onEvent` callback. -/
theorem onEventStep_stages (st : FullState) (ev : ProgressEvent) :
    (onEventStep st ev).stages =
      if ev.stage = "done" then
        (if ev.stage ≠ st.lastStage ∧ st.lastStage ≠ "" then
          updateStage st.stages st.lastStage StageStatus.completed 100 else st.stages)
      else
        updateStage
          (if ev.stage ≠ st.lastStage ∧ st.lastStage ≠ "" then
            updateStage st.stages st.lastStage StageStatus.completed 100 else st.stages)
          ev.stage StageStatus.running ev.percent := by
  unfold onEventStep
  cases hw : stageWeights ev.stage <;> split_ifs <;> simp_all

/-- C4: the stage set is exactly upload, whisper, beat, ffmpeg, finalize in
that order; whenever a received event's stage differs from the previously
seen one, every row of the previous stage is marked completed at 100 in the
resulting state; and an event can only put its own stage into the running
state — any row running after the step either belongs to the event's stage
or is a row of the previous state left untouched. -/
theorem C4_stage_lifecycle (st : FullState) (ev : ProgressEvent) :
    INITIAL_STAGES.map (fun s => s.id) = ["upload", "whisper", "beat", "ffmpeg", "finalize"]
    ∧ (ev.stage ≠ st.lastStage → st.lastStage ≠ "" →
        ∀ s ∈ (onEventStep st ev).stages, s.id = st.lastStage →
          s.status = StageStatus.completed ∧ s.progress = 100)
    ∧ (∀ s ∈ (onEventStep st ev).stages, s.status = StageStatus.running →
        s.id = ev.stage ∨ s ∈ st.stages) := by
  refine ⟨by decide, ?_, ?_⟩
  · intro hne hlast s hs hsid
    have hc : ev.stage ≠ st.lastStage ∧ st.lastStage ≠ "" := ⟨hne, hlast⟩
    rw [onEventStep_stages] at hs
    have hmarked : ∀ u ∈ updateStage st.stages st.lastStage StageStatus.completed 100,
        u.id = st.lastStage → u.status = StageStatus.completed ∧ u.progress = 100 := by
      intro u hu huid
      obtain ⟨t, _, rfl⟩ := mem_updateStage hu
      by_cases htid : t.id = st.lastStage
      · rw [if_pos htid]
        exact ⟨rfl, rfl⟩
      · rw [if_neg htid] at huid
        exact absurd huid htid
    by_cases hdone : ev.stage = "done"
    · rw [if_pos hdone, if_pos hc] at hs
      exact hmarked s hs hsid
    · rw [if_neg hdone, if_pos hc] at hs
      obtain ⟨t, ht, rfl⟩ := mem_updateStage hs
      by_cases htid : t.id = ev.stage
      · rw [if_pos htid] at hsid
        exact absurd (htid.symm.trans hsid) hne
      · rw [if_neg htid] at hsid ⊢
        exact hmarked t ht hsid
  · intro s hs hrun
    rw [onEventStep_stages] at hs
    have hbase : ∀ u, u ∈ (if ev.stage ≠ st.lastStage ∧ st.lastStage ≠ "" then
          updateStage st.stages st.lastStage StageStatus.completed 100 else st.stages) →
        u.status = StageStatus.running → u ∈ st.stages := by
      intro u hu hurun
      by_cases hc : ev.stage ≠ st.lastStage ∧ st.lastStage ≠ ""
      · rw [if_pos hc] at hu
        obtain ⟨t, ht, rfl⟩ := mem_updateStage hu
        by_cases htid : t.id = st.lastStage
        · rw [if_pos htid] at hurun
          simp at hurun
        · rw [if_neg htid]
          exact ht
      · rw [if_neg hc] at hu
        exact hu
    by_cases hdone : ev.stage = "done"
    · rw [if_pos hdone] at hs
      exact Or.inr (hbase s hs hrun)
    · rw [if_neg hdone] at hs
      obtain ⟨t, ht, rfl⟩ := mem_updateStage hs
      by_cases htid : t.id = ev.stage
      · rw [if_pos htid]
        exact Or.inl htid
      · rw [if_neg htid] at hrun ⊢
        exact Or.inr (hbase t ht hrun)

/-- C4 witness: a `beat` event arriving while `whisper` was the last seen
stage marks every whisper row completed at 100. -/
theorem C4_witness :
    ((onEventStep listenState beatEvent).stages.all
      (fun s => decide (s.id ≠ "whisper" ∨
        (s.status = StageStatus.completed ∧ s.progress = 100)))) = true := by
  have h := (C4_stage_lifecycle listenState beatEvent).2.1 (by decide) (by decide)
  rw [List.all_eq_true]
  intro s hs
  rw [decide_eq_true_eq]
  by_cases hid : s.id = "whisper"
  · exact Or.inr (h s hs hid)
  · exact Or.inl hid

/-! ### C6: error surfaces as exactly one terminal outcome -/

/-- C6: when an `error`-staged event arrives after a terminal-free prefix,
the `EventSource` is closed, the fired callbacks are exactly the `onEvent`s
of the prefix followed by a single `onError` carrying that event's message
(events after it are never delivered), the number of `onError` invocations
is exactly one, and the app state folded over those callbacks ends with
process status `error`. -/
theorem C6_error_single_terminal (pre rest : List (Option ProgressEvent))
    (ev : ProgressEvent) (tid : String) (st : FullState)
    (hpre : ∀ e, some e ∈ pre → e.stage ≠ "end" ∧ e.stage ≠ "error")
    (hev : ev.stage = "error") :
    (runStream (pre ++ some ev :: rest)).1 = true
    ∧ (runStream (pre ++ some ev :: rest)).2
        = (pre.filterMap id).map Callback.onEvent ++ [Callback.onError ev.message]
    ∧ (runStream (pre ++ some ev :: rest)).2.countP isOnErrorCB = 1
    ∧ ((runStream (pre ++ some ev :: rest)).2.foldl (applyCallback tid) st).processStatus
        = "error" := by
  have hpre' : ∀ e, some e ∈ pre → isTerminal e = false := by
    intro e he
    have h := hpre e he
    simp [isTerminal, h.1, h.2]
  have hterm : isTerminal ev = true := by
    simp [isTerminal, hev]
  have hEnd : ¬ ev.stage = "end" := by
    rw [hev]
    decide
  have hrun := runStream_terminal pre rest ev hpre' hterm
  rw [hrun]
  dsimp only
  rw [if_neg hEnd]
  refine ⟨rfl, rfl, ?_, ?_⟩
  · rw [List.countP_append, List.countP_map]
    simp [isOnErrorCB, Function.comp]
  · rw [List.foldl_append]
    rfl

/-- C6 witness: a whisper event then an error event — the stream closes and
the folded app state reports status `error`. -/
theorem C6_witness :
    (runStream [some whisperEvent, some errorEvent]).1 = true
    ∧ ((runStream [some whisperEvent, some errorEvent]).2.foldl
        (applyCallback "t1") listenState).processStatus = "error" := by
  have h := C6_error_single_terminal [some whisperEvent] [] errorEvent "t1" listenState
    (by
      intro e he
      simp only [List.mem_singleton] at he
      injection he with he
      subst he
      exact ⟨by decide, by decide⟩)
    rfl
  exact ⟨h.1, h.2.2.2⟩

/-! ### C9: drag reorder is a permutation -/

theorem cons_eraseIdx_perm (l : List VideoItem) (i : ℕ) (x : VideoItem)
    (h : l.get? i = some x) : (x :: l.eraseIdx i).Perm l := by
  induction l generalizing i with
  | nil => simp at h
  | cons y ys ih =>
    cases i with
    | zero =>
      simp only [List.get?] at h
      injection h with h
      subst h
      rfl
    | succ n =>
      simp only [List.get?] at h
      have step := (ih n h).cons y
      exact (List.Perm.swap y x (ys.eraseIdx n)).trans step

theorem insertIdx_cons_perm (x : VideoItem) :
    ∀ (n : ℕ) (l : List VideoItem), n ≤ l.length → (l.insertIdx n x).Perm (x :: l) := by
  intro n
  induction n with
  | zero =>
    intro l _
    rw [List.insertIdx_zero]
  | succ n ih =>
    intro l hl
    cases l with
    | nil => exact absurd hl (by simp)
    | cons y ys =>
      rw [List.insertIdx_succ_cons]
      have step := (ih ys (Nat.le_of_succ_le_succ hl)).cons y
      exact step.trans (List.Perm.swap x y ys)

theorem arrayMove_perm (l : List VideoItem) (fm toI : ℤ) :
    (arrayMove l fm toI).Perm l := by
  unfold arrayMove
  dsimp only
  split
  · exact List.Perm.refl l
  · rename_i x hx
    exact (insertIdx_cons_perm x _ _ (min_le_right _ _)).trans
      (cons_eraseIdx_perm l _ x hx)

/-- C9: a drag-reorder of the video list (the dragged id is one of the
rendered items) produces a permutation of the input list — the multiset of
video items is preserved, only the order changes — and dropping an item on
itself or outside any target leaves the list unchanged. -/
theorem C9_drag_reorder (videos : List VideoItem) (activeId : String)
    (overId : Option String) (ha : activeId ∈ videos.map VideoItem.id) :
    (handleDragEnd videos activeId overId).Perm videos
    ∧ (overId = none → handleDragEnd videos activeId overId = videos)
    ∧ (overId = some activeId → handleDragEnd videos activeId overId = videos) := by
  refine ⟨?_, ?_, ?_⟩
  · unfold handleDragEnd
    cases overId with
    | none => exact List.Perm.refl _
    | some o =>
      dsimp only
      by_cases hne : activeId ≠ o
      · rw [if_pos hne]
        exact arrayMove_perm _ _ _
      · rw [if_neg hne]
  · intro h
    subst h
    rfl
  · intro h
    subst h
    unfold handleDragEnd
    dsimp only
    rw [if_neg (fun hne => hne rfl)]

/-- C9 witness: moving the first of three concrete items onto the third is a
permutation; a drop outside any target changes nothing. -/
theorem C9_witness :
    (handleDragEnd sampleVideos "a" (some "c")).Perm sampleVideos
    ∧ handleDragEnd sampleVideos "a" none = sampleVideos := by
  have h1 := C9_drag_reorder sampleVideos "a" (some "c") (by decide)
  have h2 := C9_drag_reorder sampleVideos "a" none (by decide)
  exact ⟨h1.1, h2.2.1 rfl⟩

/-! ### C3: derived overall progress is monotone -/

theorem jsRound_mono {a b : ℚ} (h : a ≤ b) : jsRound a ≤ jsRound b := by
  unfold jsRound
  exact Int.floor_le_floor (by linarith)

theorem int_le_jsRound {n : ℤ} {q : ℚ} (h : (n : ℚ) ≤ q) : n ≤ jsRound q := by
  unfold jsRound
  apply Int.le_floor.mpr
  linarith

theorem stageWeights_whisper : stageWeights "whisper" = some (10, 30) := rfl

theorem stageWeights_beat : stageWeights "beat" = some (30, 45) := rfl

theorem stageWeights_ffmpeg : stageWeights "ffmpeg" = some (45, 90) := rfl

theorem stageWeights_finalize : stageWeights "finalize" = some (90, 100) := rfl

theorem jsRound_le_int {n : ℤ} {q : ℚ} (h : q ≤ (n : ℚ)) : jsRound q ≤ n := by
  unfold jsRound
  have h2 : ⌊q + 1 / 2⌋ < n + 1 := by
    apply Int.floor_lt.mpr
    push_cast
    linarith
  omega

theorem stageIdx_cases {s : String} {i : ℕ} (h : stageIdx s = some i) :
    (s = "whisper" ∧ i = 0) ∨ (s = "beat" ∧ i = 1)
    ∨ (s = "ffmpeg" ∧ i = 2) ∨ (s = "finalize" ∧ i = 3) := by
  unfold stageIdx at h
  split_ifs at h with h1 h2 h3 h4 <;> simp_all

theorem overallOf_bounds {s : String} {p : ℚ} {x : ℤ}
    (hp1 : 0 ≤ p) (hp2 : p ≤ 100) (hx : overallOf s p = some x) :
    10 ≤ x ∧ x ≤ 100 := by
  unfold overallOf stageWeights at hx
  split_ifs at hx with h1 h2 h3 h4
  · simp only [Option.map_some', Option.some.injEq] at hx
    subst hx
    exact ⟨int_le_jsRound (by push_cast; linarith), jsRound_le_int (by push_cast; linarith)⟩
  · simp only [Option.map_some', Option.some.injEq] at hx
    subst hx
    exact ⟨int_le_jsRound (by push_cast; linarith), jsRound_le_int (by push_cast; linarith)⟩
  · simp only [Option.map_some', Option.some.injEq] at hx
    subst hx
    exact ⟨int_le_jsRound (by push_cast; linarith), jsRound_le_int (by push_cast; linarith)⟩
  · simp only [Option.map_some', Option.some.injEq] at hx
    subst hx
    exact ⟨int_le_jsRound (by push_cast; linarith), jsRound_le_int (by push_cast; linarith)⟩
  · simp at hx

theorem overallOf_le_overallOf {a b : ProgressEvent} {x y : ℤ}
    (hpa2 : a.percent ≤ 100) (hpb1 : 0 ≤ b.percent)
    (hle : eventLe a b)
    (hx : overallOf a.stage a.percent = some x)
    (hy : overallOf b.stage b.percent = some y) :
    x ≤ y := by
  obtain ⟨i, j, hi, hj, hij⟩ := hle
  rcases stageIdx_cases hi with ⟨hsa, rfl⟩ | ⟨hsa, rfl⟩ | ⟨hsa, rfl⟩ | ⟨hsa, rfl⟩ <;>
    rcases stageIdx_cases hj with ⟨hsb, rfl⟩ | ⟨hsb, rfl⟩ | ⟨hsb, rfl⟩ | ⟨hsb, rfl⟩ <;>
      rw [hsa] at hx <;> rw [hsb] at hy <;>
      simp only [overallOf, stageWeights_whisper, stageWeights_beat, stageWeights_ffmpeg,
        stageWeights_finalize, Option.map_some', Option.some.injEq] at hx hy <;>
      subst hx <;> subst hy <;>
      rcases hij with hlt | ⟨heq, hpp⟩ <;>
      first
        | omega
        | (apply jsRound_mono; linarith)

theorem overallTrace_chain (es : List ProgressEvent)
    (hp : ∀ e ∈ es, 0 ≤ e.percent ∧ e.percent ≤ 100)
    (hc : es.Chain' eventLe) :
    (overallTrace es).Chain' (fun v w => v ≤ w) := by
  induction es with
  | nil => simp [overallTrace]
  | cons a tail ih =>
    cases tail with
    | nil =>
      cases h : overallOf a.stage a.percent <;>
        simp [overallTrace, List.filterMap_cons, h]
    | cons b tail2 =>
      rw [List.chain'_cons] at hc
      obtain ⟨hab, hrest⟩ := hc
      have ih' := ih (fun e he => hp e (List.mem_cons_of_mem _ he)) hrest
      obtain ⟨i, j, hi, hj, hij⟩ := hab
      obtain ⟨x, hx⟩ : ∃ x, overallOf a.stage a.percent = some x := by
        rcases stageIdx_cases hi with ⟨h, _⟩ | ⟨h, _⟩ | ⟨h, _⟩ | ⟨h, _⟩ <;>
          exact ⟨_, by rw [h]; rfl⟩
      obtain ⟨y, hy⟩ : ∃ y, overallOf b.stage b.percent = some y := by
        rcases stageIdx_cases hj with ⟨h, _⟩ | ⟨h, _⟩ | ⟨h, _⟩ | ⟨h, _⟩ <;>
          exact ⟨_, by rw [h]; rfl⟩
      have hxy : x ≤ y :=
        overallOf_le_overallOf (hp a (by simp)).2 (hp b (by simp)).1
          ⟨i, j, hi, hj, hij⟩ hx hy
      have e1 : overallTrace (a :: b :: tail2) = x :: overallTrace (b :: tail2) := by
        simp [overallTrace, List.filterMap_cons, hx]
      have e2 : overallTrace (b :: tail2) = y :: overallTrace tail2 := by
        simp [overallTrace, List.filterMap_cons, hy]
      rw [e1, e2]
      rw [e2] at ih'
      exact List.chain'_cons.mpr ⟨hxy, ih'⟩

/-- C3: over any event sequence whose stages occur in pipeline order
(whisper, beat, ffmpeg, finalize) with percent non-decreasing within a stage
and percents in [0, 100], the sequence of derived overall-progress values is
monotonically non-decreasing, stays within [10, 100], and in particular
never falls below the 10 contributed by the completed upload step. -/
theorem C3_overall_monotone (es : List ProgressEvent)
    (hp : ∀ e ∈ es, 0 ≤ e.percent ∧ e.percent ≤ 100)
    (hc : es.Chain' eventLe) :
    (10 :: overallTrace es).Chain' (fun v w => v ≤ w)
    ∧ ∀ x ∈ overallTrace es, 10 ≤ x ∧ x ≤ 100 := by
  have hb : ∀ x ∈ overallTrace es, 10 ≤ x ∧ x ≤ 100 := by
    intro x hx
    unfold overallTrace at hx
    obtain ⟨e, he, hee⟩ := List.mem_filterMap.mp hx
    exact overallOf_bounds (hp e he).1 (hp e he).2 hee
  refine ⟨?_, hb⟩
  rw [List.chain'_cons']
  refine ⟨?_, overallTrace_chain es hp hc⟩
  intro y hy
  exact (hb y (List.mem_of_mem_head? hy)).1

/-- C3 witness: a concrete pipeline-ordered run — whisper 40 → whisper 90 →
beat 0 → finalize 50 — whose derived overall trace is non-decreasing. -/
theorem C3_witness :
    (10 :: overallTrace c3Events).Chain' (fun v w => v ≤ w) := by
  refine (C3_overall_monotone c3Events (by decide) ?_).1
  refine List.chain'_cons.mpr ⟨⟨0, 0, rfl, rfl, Or.inr ⟨rfl, by norm_num⟩⟩, ?_⟩
  refine List.chain'_cons.mpr ⟨⟨0, 1, rfl, rfl, Or.inl (by norm_num)⟩, ?_⟩
  refine List.chain'_cons.mpr ⟨⟨1, 3, rfl, rfl, Or.inl (by norm_num)⟩, ?_⟩
  exact List.chain'_singleton _

end AutoCut
